import Mathlib

/-!
Verification development for the credential-protection subsystem of the
`rssh-tunnel` repository (`src/crypto.rs`).

Rust strings are embedded as their UTF-8 byte sequences (`Bytes`, lists of
naturals below 256), since every operation of the codec works on bytes.
External crates (`hex`, `argon2`/`password-hash`, `chacha20poly1305`) are not
part of the repository; they are modelled faithfully to their documented
behaviour, with the internal key-derivation and cipher mixing functions
modelled by concrete executable arithmetic.  The randomness that
`encrypt_password` draws from `OsRng` (a 16-byte salt and a 12-byte nonce) is
passed in explicitly.  An operation that can panic in Rust
(`GenericArray::from_slice` behind `Key::from_slice` / `Nonce::from_slice`)
is embedded with result type `Option`, where `none` marks the panic.
-/

/-- Byte strings: lists of naturals (each byte is interpreted modulo 256
where the source works on `u8`). -/
abbrev Bytes : Type := List Nat

/-- The ASCII code of the field delimiter `';'` used by the token format. -/
def SEMI : Nat := 59

/-- `NONCE_SIZE` constant from `src/crypto.rs`: ChaCha20-Poly1305 nonces are
12 bytes. -/
def NONCE_SIZE : Nat := 12

/-- ChaCha20-Poly1305 key size in bytes (the `Key` type of the
`chacha20poly1305` crate). -/
def CHACHA_KEY_SIZE : Nat := 32

/-- Poly1305 authentication-tag size in bytes. -/
def TAG_SIZE : Nat := 16

/-- The sub-kinds of `argon2::password_hash::Error` that the code can surface:
`SaltInvalid` from `SaltString::from_b64`, or any error raised while hashing. -/
inductive Argon2Kind : Type
  | saltInvalid : Argon2Kind
  | hashError : Argon2Kind
deriving DecidableEq

/-- The `CryptoError` enum from `src/crypto.rs`.  The payloads of the wrapped
library errors are irrelevant to control flow except for the distinction
recorded in `Argon2Kind`. -/
inductive CryptoError : Type
  | Argon2Error : Argon2Kind → CryptoError
  | HexError : CryptoError
  | Utf8Error : CryptoError
  | AeadError : CryptoError
  | InvalidDataFormat : CryptoError
deriving DecidableEq

/-- The spec's error taxonomy (§7): which `CryptoError` values count as
`FormatError` — token not valid hex, not valid UTF-8 after decoding, wrong
number of `;`-delimited parts, or a salt sub-field that is not a valid KDF
salt encoding (surfaced by the code as `Argon2Error(SaltInvalid)`). -/
def isFormatError : CryptoError → Bool
  | CryptoError.HexError => true
  | CryptoError.Utf8Error => true
  | CryptoError.InvalidDataFormat => true
  | CryptoError.Argon2Error Argon2Kind.saltInvalid => true
  | _ => false

/-- The `PasswordHash` value returned by `argon2`'s `hash_password`: only the
`hash : Option<Output>` field is consumed by the code. -/
structure PasswordHash : Type where
  hash : Option Bytes

/-! ### Hex encoding (the `hex` crate) -/

/-- Lowercase hex digit for a nibble, as `hex::encode` produces. -/
def hexDigitChar (n : Nat) : Nat :=
  if n < 10 then 48 + n else 87 + n

/-- `hex::encode`: two lowercase hex digits per byte. -/
def hexEncode : Bytes → Bytes
  | [] => []
  | b :: bs => hexDigitChar (b / 16 % 16) :: hexDigitChar (b % 16) :: hexEncode bs

/-- Value of one hex digit; `hex::decode` accepts both lowercase and
uppercase digits. -/
def hexDigitVal (b : Nat) : Option Nat :=
  if 48 ≤ b ∧ b ≤ 57 then some (b - 48)
  else if 97 ≤ b ∧ b ≤ 102 then some (b - 87)
  else if 65 ≤ b ∧ b ≤ 70 then some (b - 55)
  else none

/-- `hex::decode`: fails on odd length or any non-hex-digit byte. -/
def hexDecode : Bytes → Option Bytes
  | [] => some []
  | [_] => none
  | h :: l :: rest =>
    match hexDigitVal h, hexDigitVal l, hexDecode rest with
    | some hv, some lv, some bs => some ((hv * 16 + lv) :: bs)
    | _, _, _ => none

/-! ### B64 salts (`password_hash::SaltString` and the argon2 salt check) -/

/-- Character of the standard base64 alphabet (`A-Z a-z 0-9 + /`), used by
the PHC `B64` encoding of salts. -/
def b64Char (n : Nat) : Nat :=
  if n < 26 then 65 + n
  else if n < 52 then 97 + (n - 26)
  else if n < 62 then 48 + (n - 52)
  else if n = 62 then 43
  else 47

/-- Unpadded base64 (`B64`) encoding of a byte string, as
`SaltString::generate` applies to the 16 random salt bytes.  Bit operations
on `u8` are rendered with division/modulus, so every alphabet index is below
64 by construction. -/
def b64Encode : Bytes → Bytes
  | [] => []
  | [a] => [b64Char (a / 4 % 64), b64Char (a % 4 * 16)]
  | [a, b] => [b64Char (a / 4 % 64), b64Char (a % 4 * 16 + b / 16 % 16), b64Char (b % 16 * 4)]
  | a :: b :: c :: rest =>
    b64Char (a / 4 % 64) :: b64Char (a % 4 * 16 + b / 16 % 16) ::
      b64Char (b % 16 * 4 + c / 64 % 4) :: b64Char (c % 64) :: b64Encode rest

/-- Value of a `B64` alphabet byte, `none` for bytes outside the alphabet. -/
def b64CharVal (b : Nat) : Option Nat :=
  if 65 ≤ b ∧ b ≤ 90 then some (b - 65)
  else if 97 ≤ b ∧ b ≤ 122 then some (b - 97 + 26)
  else if 48 ≤ b ∧ b ≤ 57 then some (b - 48 + 52)
  else if b = 43 then some 62
  else if b = 47 then some 63
  else none

/-- Total version of `b64CharVal` used by the decoder. -/
def b64Val (b : Nat) : Nat :=
  match b64CharVal b with
  | some v => v
  | none => 0

/-- Unpadded base64 decoding (left inverse of `b64Encode` on byte strings). -/
def b64Decode : Bytes → Bytes
  | [] => []
  | [_] => []
  | [c1, c2] => [b64Val c1 * 4 + b64Val c2 / 16]
  | [c1, c2, c3] => [b64Val c1 * 4 + b64Val c2 / 16, b64Val c2 % 16 * 16 + b64Val c3 / 4]
  | c1 :: c2 :: c3 :: c4 :: rest =>
    (b64Val c1 * 4 + b64Val c2 / 16) :: (b64Val c2 % 16 * 16 + b64Val c3 / 4) ::
      (b64Val c3 % 4 * 64 + b64Val c4) :: b64Decode rest

/-- Characters admitted in a PHC salt field by `Salt::from_b64`
(`[a-zA-Z0-9/+.-]`). -/
def saltCharOk (b : Nat) : Bool :=
  decide ((65 ≤ b ∧ b ≤ 90) ∨ (97 ≤ b ∧ b ≤ 122) ∨ (48 ≤ b ∧ b ≤ 57) ∨
    b = 43 ∨ b = 46 ∨ b = 45 ∨ b = 47)

/-- Modelled from the spec: `SaltString::from_b64` of the `password-hash`
crate (parsing "part 1 as a salt in the key-derivation function's canonical
encoding").  It accepts strings of 4 to 64 salt characters and rejects
anything else with `Error::SaltInvalid`. -/
def salt_from_b64 (s : Bytes) : Except Unit Bytes :=
  if 4 ≤ s.length ∧ s.length ≤ 64 ∧ s.all saltCharOk then Except.ok s else Except.error ()

/-- Byte length obtained when `B64`-decoding a string of `n` salt
characters. -/
def b64DecodedLen (n : Nat) : Nat :=
  n / 4 * 3 + (if n % 4 = 0 then 0 else n % 4 - 1)

/-- Whether a salt string is decodable `B64` yielding an argon2-acceptable
salt: every byte in the alphabet, a length that is not 1 mod 4, and a decoded
length within argon2's accepted 8–64 bytes. -/
def b64SaltOk (s : Bytes) : Bool :=
  s.all (fun b => (b64CharVal b).isSome) && decide (s.length % 4 ≠ 1) &&
    decide (8 ≤ b64DecodedLen s.length ∧ b64DecodedLen s.length ≤ 64)

/-! ### The modelled Argon2 key derivation -/

/-- Concrete mixing fold used by the modelled key derivation and cipher: an
FNV-style xor-multiply fold on 16-bit state. -/
def mixFold (seed : Nat) (l : Bytes) : Nat :=
  l.foldl (fun a b => ((a ^^^ b % 256) * 16777619 + 1) % 65536) (seed % 65536)

/-- Modelled from the spec: the 32-byte key derived by Argon2 with its
default parameters from the master passphrase and the salt string ("derive a
symmetric key by running a memory-hard password-hashing function over
`masterPassphrase` using that salt").  The memory-hard function itself is
external to the repository; it is modelled by a concrete keyed mixing
function that keeps the two essential interface facts: the output is a
deterministic function of `(password, salt)` and is exactly 32 bytes. -/
def kdf (pwd salt : Bytes) : Bytes :=
  (List.range CHACHA_KEY_SIZE).map
    (fun i => mixFold (mixFold (i * 2654435761 % 65536) pwd) salt % 256)

/-- Modelled from the spec: `Argon2::default().hash_password(pwd, &salt)`.
It fails (with an error surfaced as `CryptoError::Argon2Error`) when the salt
string does not `B64`-decode to an 8–64-byte raw salt; otherwise it returns a
`PasswordHash` whose `hash` field holds the 32-byte derived key. -/
def argon2_hash_password (pwd salt : Bytes) : Except Unit PasswordHash :=
  if b64SaltOk salt then Except.ok ⟨some (kdf pwd salt)⟩ else Except.error ()

/-! ### The modelled ChaCha20-Poly1305 AEAD -/

/-- Modelled from the spec: one keystream byte of the stream cipher for a
given key, nonce and position. -/
def ksByte (key nonce : Bytes) (i : Nat) : Nat :=
  mixFold (mixFold (i + 7) key) nonce % 256

/-- XOR a byte string with the keystream starting at position `i`. -/
def xorKs (key nonce : Bytes) : Nat → Bytes → Bytes
  | _, [] => []
  | i, b :: bs => (b ^^^ ksByte key nonce i) :: xorKs key nonce (i + 1) bs

/-- Modelled from the spec: the 16-byte authentication tag over the cipher
body.  Its first byte folds in the sum of the body bytes (so any single-byte
change of the body changes the tag), the rest mix the key and nonce. -/
def polyTag (key nonce body : Bytes) : Bytes :=
  ((body.sum + mixFold 3 (key ++ nonce)) % 256) ::
    (List.range (TAG_SIZE - 1)).map (fun i => mixFold (i + 99) (key ++ nonce) % 256)

/-- Modelled from the spec: AEAD encryption, "output is
ciphertext-with-appended-tag" of length plaintext + 16. -/
def aeadEncrypt (key nonce pt : Bytes) : Bytes :=
  xorKs key nonce 0 pt ++ polyTag key nonce (xorKs key nonce 0 pt)

/-- Modelled from the spec: AEAD decryption; fails exactly when the input is
shorter than a tag or the recomputed tag differs from the stored one
("decryption fails (integrity-tag mismatch)"). -/
def aeadDecrypt (key nonce ct : Bytes) : Except Unit Bytes :=
  if ct.length < TAG_SIZE then Except.error ()
  else
    let body := ct.take (ct.length - TAG_SIZE)
    let tag := ct.drop (ct.length - TAG_SIZE)
    if tag = polyTag key nonce body then Except.ok (xorKs key nonce 0 body)
    else Except.error ()

/-- `Key::from_slice` of the `chacha20poly1305` crate: panics (here `none`)
unless the slice is exactly 32 bytes. -/
def keyFromSlice (b : Bytes) : Option Bytes :=
  if b.length = CHACHA_KEY_SIZE then some b else none

/-- `Nonce::from_slice`: panics (here `none`) unless the slice is exactly 12
bytes. -/
def nonceFromSlice (b : Bytes) : Option Bytes :=
  if b.length = NONCE_SIZE then some b else none

/-! ### UTF-8 validity (`String::from_utf8`) -/

/-- Continuation byte of a multi-byte UTF-8 sequence. -/
def isCont (b : Nat) : Bool :=
  decide (128 ≤ b ∧ b ≤ 191)

/-- The UTF-8 validity check performed by `String::from_utf8`: the standard
well-formedness conditions, including rejection of overlong encodings,
surrogates and code points above `U+10FFFF`. -/
def utf8Valid : Bytes → Bool
  | [] => true
  | b :: bs =>
    if b ≤ 127 then utf8Valid bs
    else
      match bs with
      | [] => false
      | b1 :: bs1 =>
        if 194 ≤ b ∧ b ≤ 223 then isCont b1 && utf8Valid bs1
        else
          match bs1 with
          | [] => false
          | b2 :: bs2 =>
            if b = 224 then decide (160 ≤ b1 ∧ b1 ≤ 191) && isCont b2 && utf8Valid bs2
            else if (225 ≤ b ∧ b ≤ 236) ∨ (238 ≤ b ∧ b ≤ 239) then
              isCont b1 && isCont b2 && utf8Valid bs2
            else if b = 237 then decide (128 ≤ b1 ∧ b1 ≤ 159) && isCont b2 && utf8Valid bs2
            else
              match bs2 with
              | [] => false
              | b3 :: bs3 =>
                if b = 240 then
                  decide (144 ≤ b1 ∧ b1 ≤ 191) && isCont b2 && isCont b3 && utf8Valid bs3
                else if 241 ≤ b ∧ b ≤ 243 then
                  isCont b1 && isCont b2 && isCont b3 && utf8Valid bs3
                else if b = 244 then
                  decide (128 ≤ b1 ∧ b1 ≤ 143) && isCont b2 && isCont b3 && utf8Valid bs3
                else false

/-! ### `encrypt_password` and `decrypt_password` -/

/-- `encrypt_password` from `src/crypto.rs`, with the randomness drawn from
`OsRng` made explicit: `saltRand` are the 16 raw bytes behind
`SaltString::generate` and `nonce_bytes` the 12 bytes behind `fill_bytes`.
The result is `none` when the Rust code would panic (a `from_slice` length
mismatch), and otherwise `some` of the `Result` the Rust function returns. -/
def encrypt_password (master_password password saltRand nonce_bytes : Bytes) :
    Option (Except CryptoError Bytes) :=
  let salt := b64Encode saltRand
  match argon2_hash_password master_password salt with
  | Except.error _ => some (Except.error (CryptoError.Argon2Error Argon2Kind.hashError))
  | Except.ok hashed_master_password =>
    match hashed_master_password.hash with
    | none => some (Except.error CryptoError.InvalidDataFormat)
    | some binding =>
      match keyFromSlice binding with
      | none => none
      | some key =>
        match nonceFromSlice nonce_bytes with
        | none => none
        | some nonce =>
          let ciphertext := aeadEncrypt key nonce password
          let encrypted_data :=
            salt ++ [SEMI] ++ hexEncode nonce_bytes ++ [SEMI] ++ hexEncode ciphertext
          some (Except.ok (hexEncode encrypted_data))

/-- `decrypt_password` from `src/crypto.rs`.  The result is `none` when the
Rust code would panic (`Key::from_slice` or `Nonce::from_slice` on a slice of
the wrong length), and otherwise `some` of the returned `Result`. -/
def decrypt_password (master_password encrypted_data : Bytes) :
    Option (Except CryptoError Bytes) :=
  match hexDecode encrypted_data with
  | none => some (Except.error CryptoError.HexError)
  | some decoded_data =>
    if utf8Valid decoded_data then
      let parts := decoded_data.splitOn SEMI
      if parts.length = 3 then
        match salt_from_b64 (parts.getD 0 []) with
        | Except.error _ =>
          some (Except.error (CryptoError.Argon2Error Argon2Kind.saltInvalid))
        | Except.ok salt =>
          match hexDecode (parts.getD 1 []) with
          | none => some (Except.error CryptoError.HexError)
          | some nonce_bytes =>
            match hexDecode (parts.getD 2 []) with
            | none => some (Except.error CryptoError.HexError)
            | some ciphertext =>
              match argon2_hash_password master_password salt with
              | Except.error _ =>
                some (Except.error (CryptoError.Argon2Error Argon2Kind.hashError))
              | Except.ok hashed_master_password =>
                match hashed_master_password.hash with
                | none => some (Except.error CryptoError.InvalidDataFormat)
                | some binding =>
                  match keyFromSlice binding with
                  | none => none
                  | some key =>
                    match nonceFromSlice nonce_bytes with
                    | none => none
                    | some nonce =>
                      match aeadDecrypt key nonce ciphertext with
                      | Except.error _ => some (Except.error CryptoError.AeadError)
                      | Except.ok plaintext =>
                        if utf8Valid plaintext then some (Except.ok plaintext)
                        else some (Except.error CryptoError.Utf8Error)
      else some (Except.error CryptoError.InvalidDataFormat)
    else some (Except.error CryptoError.Utf8Error)

/-! ### `is_password_strong` -/

/-- Modelled from the spec: Rust `char::is_uppercase` (the Unicode
`Uppercase` property), modelled on the ASCII range where all of the spec's
concrete cases live. -/
def charIsUppercase (c : Char) : Bool :=
  decide (65 ≤ c.toNat ∧ c.toNat ≤ 90)

/-- Modelled from the spec: Rust `char::is_lowercase` (the Unicode
`Lowercase` property), modelled on the ASCII range. -/
def charIsLowercase (c : Char) : Bool :=
  decide (97 ≤ c.toNat ∧ c.toNat ≤ 122)

/-- Rust `char::is_ascii_digit`: exactly `'0'..='9'`. -/
def charIsAsciiDigit (c : Char) : Bool :=
  decide (48 ≤ c.toNat ∧ c.toNat ≤ 57)

/-- Rust `char::is_ascii_punctuation`: the four ASCII punctuation ranges. -/
def charIsAsciiPunct (c : Char) : Bool :=
  decide ((33 ≤ c.toNat ∧ c.toNat ≤ 47) ∨ (58 ≤ c.toNat ∧ c.toNat ≤ 64) ∨
    (91 ≤ c.toNat ∧ c.toNat ≤ 96) ∨ (123 ≤ c.toNat ∧ c.toNat ≤ 126))

/-- Rust `str::len`: the UTF-8 byte length of the string. -/
def rustStrLen (s : String) : Nat :=
  (s.data.map Char.utf8Size).sum

/-- `is_password_strong` from `src/crypto.rs`. -/
def is_password_strong (password : String) : Bool :=
  let min_length := 12
  let has_uppercase := password.data.any charIsUppercase
  let has_lowercase := password.data.any charIsLowercase
  let has_digit := password.data.any charIsAsciiDigit
  let has_special := password.data.any charIsAsciiPunct
  decide (min_length ≤ rustStrLen password) && has_uppercase && has_lowercase &&
    has_digit && has_special

/-! ### Helper lemmas: hex -/

theorem hexDigit_props : ∀ n, n < 16 →
    hexDigitVal (hexDigitChar n) = some n ∧ hexDigitChar n < 128 ∧ hexDigitChar n ≠ SEMI := by
  decide

theorem hexEncode_mem {l : Bytes} : ∀ x ∈ hexEncode l, ∃ n, n < 16 ∧ x = hexDigitChar n := by
  induction l with
  | nil => intro x hx; cases hx
  | cons b bs ih =>
    intro x hx
    rcases hx with _ | ⟨_, hx⟩
    · exact ⟨b / 16 % 16, Nat.mod_lt _ (by omega), rfl⟩
    · rcases hx with _ | ⟨_, hx⟩
      · exact ⟨b % 16, Nat.mod_lt _ (by omega), rfl⟩
      · exact ih x hx

theorem hexEncode_ascii {l : Bytes} : ∀ x ∈ hexEncode l, x < 128 := by
  intro x hx
  obtain ⟨n, hn, rfl⟩ := hexEncode_mem x hx
  exact (hexDigit_props n hn).2.1

theorem hexEncode_no_semi {l : Bytes} : SEMI ∉ hexEncode l := by
  intro hmem
  obtain ⟨n, hn, h⟩ := hexEncode_mem SEMI hmem
  exact (hexDigit_props n hn).2.2 h.symm

theorem hexDecode_hexEncode {l : Bytes} (h : ∀ b ∈ l, b < 256) :
    hexDecode (hexEncode l) = some l := by
  induction l with
  | nil => rfl
  | cons b bs ih =>
    have hb : b < 256 := h b (List.mem_cons_self b bs)
    have h1 := (hexDigit_props (b / 16 % 16) (Nat.mod_lt _ (by omega))).1
    have h2 := (hexDigit_props (b % 16) (Nat.mod_lt _ (by omega))).1
    have ih' := ih (fun x hx => h x (List.mem_cons_of_mem b hx))
    show hexDecode (_ :: _ :: hexEncode bs) = _
    rw [hexDecode, h1, h2, ih']
    show some ((b / 16 % 16 * 16 + b % 16) :: bs) = some (b :: bs)
    have : b / 16 % 16 * 16 + b % 16 = b := by omega
    rw [this]

/-! ### Helper lemmas: B64 -/

theorem b64Char_props : ∀ n, n < 64 →
    b64Char n < 128 ∧ b64Char n ≠ SEMI ∧ saltCharOk (b64Char n) = true ∧
      b64CharVal (b64Char n) = some n := by
  decide

theorem b64Encode_mem {l : Bytes} : ∀ x ∈ b64Encode l, ∃ n, n < 64 ∧ x = b64Char n := by
  induction l using b64Encode.induct with
  | case1 => intro x hx; cases hx
  | case2 a =>
    intro x hx
    rcases hx with _ | ⟨_, hx⟩
    · exact ⟨a / 4 % 64, Nat.mod_lt _ (by omega), rfl⟩
    · rcases hx with _ | ⟨_, hx⟩
      · exact ⟨a % 4 * 16, by omega, rfl⟩
      · cases hx
  | case3 a b =>
    intro x hx
    rcases hx with _ | ⟨_, hx⟩
    · exact ⟨a / 4 % 64, Nat.mod_lt _ (by omega), rfl⟩
    · rcases hx with _ | ⟨_, hx⟩
      · exact ⟨a % 4 * 16 + b / 16 % 16, by omega, rfl⟩
      · rcases hx with _ | ⟨_, hx⟩
        · exact ⟨b % 16 * 4, by omega, rfl⟩
        · cases hx
  | case4 a b c rest ih =>
    intro x hx
    rcases hx with _ | ⟨_, hx⟩
    · exact ⟨a / 4 % 64, Nat.mod_lt _ (by omega), rfl⟩
    · rcases hx with _ | ⟨_, hx⟩
      · exact ⟨a % 4 * 16 + b / 16 % 16, by omega, rfl⟩
      · rcases hx with _ | ⟨_, hx⟩
        · exact ⟨b % 16 * 4 + c / 64 % 4, by omega, rfl⟩
        · rcases hx with _ | ⟨_, hx⟩
          · exact ⟨c % 64, Nat.mod_lt _ (by omega), rfl⟩
          · exact ih x hx

theorem b64Encode_ascii {l : Bytes} : ∀ x ∈ b64Encode l, x < 128 := by
  intro x hx
  obtain ⟨n, hn, rfl⟩ := b64Encode_mem x hx
  exact (b64Char_props n hn).1

theorem b64Encode_no_semi {l : Bytes} : SEMI ∉ b64Encode l := by
  intro hmem
  obtain ⟨n, hn, h⟩ := b64Encode_mem SEMI hmem
  exact (b64Char_props n hn).2.1 h.symm

theorem b64Encode_length (l : Bytes) :
    (b64Encode l).length =
      l.length / 3 * 4 + (if l.length % 3 = 0 then 0 else l.length % 3 + 1) := by
  induction l using b64Encode.induct with
  | case1 => rfl
  | case2 a => simp [b64Encode]
  | case3 a b => simp [b64Encode]
  | case4 a b c rest ih =>
    show (_ :: _ :: _ :: _ :: b64Encode rest).length = _
    have h3 : rest.length + 1 + 1 + 1 = rest.length + 3 := rfl
    simp only [List.length_cons, ih, h3, Nat.add_mod_right,
      Nat.add_div_right _ (by norm_num : 0 < 3)]
    omega

theorem b64Val_b64Char : ∀ n, n < 64 → b64Val (b64Char n) = n := by
  decide

theorem b64Decode_b64Encode {l : Bytes} (h : ∀ b ∈ l, b < 256) :
    b64Decode (b64Encode l) = l := by
  induction l using b64Encode.induct with
  | case1 => rfl
  | case2 a =>
    have ha : a < 256 := h a (by simp)
    show b64Decode [b64Char (a / 4 % 64), b64Char (a % 4 * 16)] = [a]
    simp only [b64Decode, b64Val_b64Char _ (by omega : a / 4 % 64 < 64),
      b64Val_b64Char _ (by omega : a % 4 * 16 < 64)]
    have : a / 4 % 64 * 4 + a % 4 * 16 / 16 = a := by omega
    rw [this]
  | case3 a b =>
    have ha : a < 256 := h a (by simp)
    have hb : b < 256 := h b (by simp)
    show b64Decode [b64Char (a / 4 % 64), b64Char (a % 4 * 16 + b / 16 % 16),
      b64Char (b % 16 * 4)] = [a, b]
    simp only [b64Decode, b64Val_b64Char _ (by omega : a / 4 % 64 < 64),
      b64Val_b64Char _ (by omega : a % 4 * 16 + b / 16 % 16 < 64),
      b64Val_b64Char _ (by omega : b % 16 * 4 < 64)]
    have e1 : a / 4 % 64 * 4 + (a % 4 * 16 + b / 16 % 16) / 16 = a := by omega
    have e2 : (a % 4 * 16 + b / 16 % 16) % 16 * 16 + b % 16 * 4 / 4 = b := by omega
    rw [e1, e2]
  | case4 a b c rest ih =>
    have ha : a < 256 := h a (by simp)
    have hb : b < 256 := h b (by simp)
    have hc : c < 256 := h c (by simp)
    have ih' := ih (fun x hx => h x (by simp [hx]))
    show b64Decode (b64Char (a / 4 % 64) :: b64Char (a % 4 * 16 + b / 16 % 16) ::
      b64Char (b % 16 * 4 + c / 64 % 4) :: b64Char (c % 64) :: b64Encode rest) = a :: b :: c :: rest
    simp only [b64Decode, b64Val_b64Char _ (by omega : a / 4 % 64 < 64),
      b64Val_b64Char _ (by omega : a % 4 * 16 + b / 16 % 16 < 64),
      b64Val_b64Char _ (by omega : b % 16 * 4 + c / 64 % 4 < 64),
      b64Val_b64Char _ (by omega : c % 64 < 64), ih']
    have e1 : a / 4 % 64 * 4 + (a % 4 * 16 + b / 16 % 16) / 16 = a := by omega
    have e2 : (a % 4 * 16 + b / 16 % 16) % 16 * 16 + (b % 16 * 4 + c / 64 % 4) / 4 = b := by
      omega
    have e3 : (b % 16 * 4 + c / 64 % 4) % 4 * 64 + c % 64 = c := by omega
    rw [e1, e2, e3]

theorem b64Encode_injOn {l1 l2 : Bytes} (h1 : ∀ b ∈ l1, b < 256) (h2 : ∀ b ∈ l2, b < 256)
    (he : b64Encode l1 = b64Encode l2) : l1 = l2 := by
  have := b64Decode_b64Encode h1
  rw [he, b64Decode_b64Encode h2] at this
  exact this.symm

theorem b64SaltOk_generate {l : Bytes} (hl : l.length = 16) :
    b64SaltOk (b64Encode l) = true := by
  have hlen : (b64Encode l).length = 22 := by rw [b64Encode_length, hl]; decide
  have hall : (b64Encode l).all (fun b => (b64CharVal b).isSome) = true := by
    rw [List.all_eq_true]
    intro x hx
    obtain ⟨n, hn, rfl⟩ := b64Encode_mem x hx
    rw [(b64Char_props n hn).2.2.2]
    rfl
  unfold b64SaltOk
  rw [hlen, hall]
  rfl

theorem argon2_generate (m : Bytes) {l : Bytes} (hl : l.length = 16) :
    argon2_hash_password m (b64Encode l) = Except.ok ⟨some (kdf m (b64Encode l))⟩ := by
  unfold argon2_hash_password
  rw [b64SaltOk_generate hl]
  rfl

theorem salt_from_b64_generate {l : Bytes} (hl : l.length = 16) :
    salt_from_b64 (b64Encode l) = Except.ok (b64Encode l) := by
  have hlen : (b64Encode l).length = 22 := by rw [b64Encode_length, hl]; decide
  unfold salt_from_b64
  rw [if_pos]
  refine ⟨by omega, by omega, ?_⟩
  rw [List.all_eq_true]
  intro x hx
  obtain ⟨n, hn, rfl⟩ := b64Encode_mem x hx
  exact (b64Char_props n hn).2.2.1

/-! ### Helper lemmas: UTF-8 and splitting -/

theorem utf8Valid_of_ascii {l : Bytes} (h : ∀ b ∈ l, b < 128) : utf8Valid l = true := by
  induction l with
  | nil => rfl
  | cons b bs ih =>
    have hb : b ≤ 127 := by have := h b (List.mem_cons_self b bs); omega
    unfold utf8Valid
    rw [if_pos hb]
    exact ih (fun x hx => h x (List.mem_cons_of_mem b hx))

theorem splitOn_three {s1 s2 s3 : Bytes} (h1 : SEMI ∉ s1) (h2 : SEMI ∉ s2) (h3 : SEMI ∉ s3) :
    (s1 ++ [SEMI] ++ s2 ++ [SEMI] ++ s3).splitOn SEMI = [s1, s2, s3] := by
  have e : s1 ++ [SEMI] ++ s2 ++ [SEMI] ++ s3 = s1 ++ SEMI :: (s2 ++ SEMI :: s3) := by
    simp [List.append_assoc]
  have hp1 : ∀ x ∈ s1, ¬((x == SEMI) = true) := by
    intro x hx hbeq
    exact h1 (by rw [← beq_iff_eq.mp hbeq] at h1 ⊢; exact hx)
  have hp2 : ∀ x ∈ s2, ¬((x == SEMI) = true) := by
    intro x hx hbeq
    exact h2 (by rw [← beq_iff_eq.mp hbeq] at h2 ⊢; exact hx)
  have hp3 : ∀ x ∈ s3, ¬((x == SEMI) = true) := by
    intro x hx hbeq
    exact h3 (by rw [← beq_iff_eq.mp hbeq] at h3 ⊢; exact hx)
  rw [e]
  show List.splitOnP (· == SEMI) _ = _
  rw [List.splitOnP_first _ _ hp1 SEMI (by simp), List.splitOnP_first _ _ hp2 SEMI (by simp),
    List.splitOnP_eq_single _ _ hp3]

/-! ### Helper lemmas: the modelled AEAD -/

theorem xorKs_length (k n : Bytes) (i : Nat) (l : Bytes) :
    (xorKs k n i l).length = l.length := by
  induction l generalizing i with
  | nil => rfl
  | cons b bs ih => simp [xorKs, ih]

theorem ksByte_lt (k n : Bytes) (i : Nat) : ksByte k n i < 256 :=
  Nat.mod_lt _ (by norm_num)

theorem xorKs_xorKs (k n : Bytes) (i : Nat) (l : Bytes) :
    xorKs k n i (xorKs k n i l) = l := by
  induction l generalizing i with
  | nil => rfl
  | cons b bs ih =>
    show (b ^^^ ksByte k n i ^^^ ksByte k n i) :: xorKs k n (i + 1) (xorKs k n (i + 1) bs) = _
    rw [Nat.xor_assoc, Nat.xor_self, Nat.xor_zero, ih]

theorem xorKs_lt {l : Bytes} (h : ∀ b ∈ l, b < 256) (k n : Bytes) (i : Nat) :
    ∀ x ∈ xorKs k n i l, x < 256 := by
  induction l generalizing i with
  | nil => intro x hx; cases hx
  | cons b bs ih =>
    intro x hx
    rcases hx with _ | ⟨_, hx⟩
    · have hb : b < 2 ^ 8 := h b (List.mem_cons_self b bs)
      have hk : ksByte k n i < 2 ^ 8 := ksByte_lt k n i
      exact Nat.xor_lt_two_pow hb hk
    · exact ih (fun y hy => h y (List.mem_cons_of_mem b hy)) (i + 1) x hx

theorem polyTag_length (k n body : Bytes) : (polyTag k n body).length = 16 := by
  simp [polyTag, TAG_SIZE]

theorem polyTag_lt (k n body : Bytes) : ∀ x ∈ polyTag k n body, x < 256 := by
  intro x hx
  rcases hx with _ | ⟨_, hx⟩
  · exact Nat.mod_lt _ (by norm_num)
  · obtain ⟨i, _, rfl⟩ := List.mem_map.mp hx
    exact Nat.mod_lt _ (by norm_num)

theorem aeadEncrypt_length (k n p : Bytes) : (aeadEncrypt k n p).length = p.length + 16 := by
  simp [aeadEncrypt, xorKs_length, polyTag_length]

theorem aeadEncrypt_lt {p : Bytes} (hp : ∀ b ∈ p, b < 256) (k n : Bytes) :
    ∀ x ∈ aeadEncrypt k n p, x < 256 := by
  intro x hx
  rcases List.mem_append.mp hx with hx | hx
  · exact xorKs_lt hp k n 0 x hx
  · exact polyTag_lt k n _ x hx

theorem aeadDecrypt_body_tag (k n body tag : Bytes) (ht : tag.length = 16) :
    aeadDecrypt k n (body ++ tag) =
      if tag = polyTag k n body then Except.ok (xorKs k n 0 body) else Except.error () := by
  unfold aeadDecrypt
  have h1 : (body ++ tag).length = body.length + 16 := by simp [ht]
  rw [h1]
  have h2 : ¬(body.length + 16 < TAG_SIZE) := by simp [TAG_SIZE]
  rw [if_neg h2]
  have h3 : body.length + 16 - TAG_SIZE = body.length := by simp [TAG_SIZE]
  rw [h3, List.take_left, List.drop_left]

theorem aead_roundtrip (k n p : Bytes) :
    aeadDecrypt k n (aeadEncrypt k n p) = Except.ok p := by
  unfold aeadEncrypt
  rw [aeadDecrypt_body_tag k n _ _ (polyTag_length k n _), if_pos rfl, xorKs_xorKs]

/-! ### Helper lemmas: the key derivation -/

theorem kdf_length (m s : Bytes) : (kdf m s).length = 32 := by
  simp [kdf, CHACHA_KEY_SIZE]

theorem kdf_lt (m s : Bytes) : ∀ x ∈ kdf m s, x < 256 := by
  intro x hx
  obtain ⟨i, _, rfl⟩ := List.mem_map.mp hx
  exact Nat.mod_lt _ (by norm_num)

theorem keyFromSlice_kdf (m s : Bytes) : keyFromSlice (kdf m s) = some (kdf m s) := by
  unfold keyFromSlice
  rw [if_pos]
  exact kdf_length m s

/-! ### The seal and open pipelines -/

theorem nonceFromSlice_of_len {nonce : Bytes} (hn : nonce.length = 12) :
    nonceFromSlice nonce = some nonce := by
  unfold nonceFromSlice
  rw [if_pos]
  exact hn

theorem encrypt_eq (m p : Bytes) {saltRand nonce : Bytes}
    (hs : saltRand.length = 16) (hn : nonce.length = 12) :
    encrypt_password m p saltRand nonce =
      some (Except.ok (hexEncode (b64Encode saltRand ++ [SEMI] ++ hexEncode nonce ++ [SEMI] ++
        hexEncode (aeadEncrypt (kdf m (b64Encode saltRand)) nonce p)))) := by
  simp only [encrypt_password, argon2_generate m hs, keyFromSlice_kdf,
    nonceFromSlice_of_len hn]

theorem token_bytes_lt {saltRand nonce ct : Bytes} :
    ∀ x ∈ b64Encode saltRand ++ [SEMI] ++ hexEncode nonce ++ [SEMI] ++ hexEncode ct,
      x < 128 := by
  intro x hx
  simp only [List.mem_append, List.mem_singleton] at hx
  rcases hx with (((hx | hx) | hx) | hx) | hx
  · exact b64Encode_ascii x hx
  · rw [hx]; norm_num [SEMI]
  · exact hexEncode_ascii x hx
  · rw [hx]; norm_num [SEMI]
  · exact hexEncode_ascii x hx

theorem decrypt_token_eq (m' : Bytes) {saltRand nonce ct : Bytes}
    (hs : saltRand.length = 16) (hn : nonce.length = 12) (hnb : ∀ b ∈ nonce, b < 256)
    (hct : ∀ b ∈ ct, b < 256) :
    decrypt_password m' (hexEncode (b64Encode saltRand ++ [SEMI] ++ hexEncode nonce ++ [SEMI] ++
        hexEncode ct)) =
      match aeadDecrypt (kdf m' (b64Encode saltRand)) nonce ct with
      | Except.error _ => some (Except.error CryptoError.AeadError)
      | Except.ok plaintext =>
        if utf8Valid plaintext then some (Except.ok plaintext)
        else some (Except.error CryptoError.Utf8Error) := by
  have hinner : ∀ x ∈ b64Encode saltRand ++ [SEMI] ++ hexEncode nonce ++ [SEMI] ++ hexEncode ct,
      x < 256 := fun x hx => lt_trans (token_bytes_lt x hx) (by norm_num)
  simp only [decrypt_password, hexDecode_hexEncode hinner,
    utf8Valid_of_ascii token_bytes_lt,
    splitOn_three b64Encode_no_semi hexEncode_no_semi hexEncode_no_semi,
    List.length_cons, List.length_nil, List.getD, List.get?_cons_zero,
    List.get?_cons_succ, Option.getD_some, salt_from_b64_generate hs,
    hexDecode_hexEncode hnb, hexDecode_hexEncode hct, argon2_generate m' hs,
    keyFromSlice_kdf, nonceFromSlice_of_len hn, if_true]

/-! ### Claim theorems -/

/-- C1: Round-trip — for every master passphrase `m` and plaintext `p` (a
valid UTF-8 byte string), and for any choice of the fresh 16-byte salt and
12-byte nonce drawn inside seal, `encrypt_password` succeeds with a token `t`
and `decrypt_password m t` succeeds and yields exactly `p`. -/
theorem roundtrip_encrypt_decrypt (m p saltRand nonce : Bytes)
    (hp256 : ∀ b ∈ p, b < 256) (hputf : utf8Valid p = true)
    (hs : saltRand.length = 16) (hn : nonce.length = 12) (hnb : ∀ b ∈ nonce, b < 256) :
    ∃ t : Bytes, encrypt_password m p saltRand nonce = some (Except.ok t) ∧
      decrypt_password m t = some (Except.ok p) := by
  refine ⟨_, encrypt_eq m p hs hn, ?_⟩
  rw [decrypt_token_eq m hs hn hnb (aeadEncrypt_lt hp256 _ _), aead_roundtrip]
  show (if utf8Valid p = true then some (Except.ok p)
    else some (Except.error CryptoError.Utf8Error)) = some (Except.ok p)
  rw [hputf, if_pos rfl]

/-- Witness for C1 at concrete inputs: master `"m"`, plaintext `"hi"`, salt
bytes all 1, nonce bytes all 2. -/
theorem roundtrip_encrypt_decrypt_witness :
    (∀ b ∈ ([104, 105] : Bytes), b < 256) ∧ utf8Valid [104, 105] = true ∧
      (List.replicate 16 1 : Bytes).length = 16 ∧ (List.replicate 12 2 : Bytes).length = 12 ∧
      (∀ b ∈ (List.replicate 12 2 : Bytes), b < 256) ∧
      (∃ t : Bytes,
        encrypt_password [109] [104, 105] (List.replicate 16 1) (List.replicate 12 2) =
          some (Except.ok t) ∧
        decrypt_password [109] t = some (Except.ok [104, 105])) :=
  ⟨by decide, by decide, by decide, by decide, by decide,
    roundtrip_encrypt_decrypt [109] [104, 105] (List.replicate 16 1) (List.replicate 12 2)
      (by decide) (by decide) (by decide) (by decide) (by decide)⟩

/-- C10: seal imposes no non-emptiness check — with the empty master
passphrase and the empty plaintext it succeeds, the ciphertext is the
16-byte tag alone, and the round trip still returns the empty string. -/
theorem empty_inputs_roundtrip (saltRand nonce : Bytes) (hs : saltRand.length = 16)
    (hn : nonce.length = 12) (hnb : ∀ b ∈ nonce, b < 256) :
    ∃ t : Bytes, encrypt_password [] [] saltRand nonce = some (Except.ok t) ∧
      (aeadEncrypt (kdf [] (b64Encode saltRand)) nonce []).length = 16 ∧
      decrypt_password [] t = some (Except.ok []) := by
  refine ⟨_, encrypt_eq [] [] hs hn, aeadEncrypt_length _ _ _, ?_⟩
  rw [decrypt_token_eq [] hs hn hnb (aeadEncrypt_lt (fun b hb => by cases hb) _ _),
    aead_roundtrip]
  show (if utf8Valid [] = true then some (Except.ok ([] : Bytes))
    else some (Except.error CryptoError.Utf8Error)) = some (Except.ok ([] : Bytes))
  rfl

/-- Witness for C10 at concrete salt bytes all 9 and nonce bytes all 8. -/
theorem empty_inputs_roundtrip_witness :
    (List.replicate 16 9 : Bytes).length = 16 ∧ (List.replicate 12 8 : Bytes).length = 12 ∧
      (∀ b ∈ (List.replicate 12 8 : Bytes), b < 256) ∧
      (∃ t : Bytes, encrypt_password [] [] (List.replicate 16 9) (List.replicate 12 8) =
          some (Except.ok t) ∧
        (aeadEncrypt (kdf [] (b64Encode (List.replicate 16 9))) (List.replicate 12 8)
            []).length = 16 ∧
        decrypt_password [] t = some (Except.ok [])) :=
  ⟨by decide, by decide, by decide,
    empty_inputs_roundtrip (List.replicate 16 9) (List.replicate 12 8)
      (by decide) (by decide) (by decide)⟩

/-- C4: token wire format — every token produced by seal is
`hex( salt_encoding ';' hex(nonce) ';' hex(ciphertext_and_tag) )`, the salt
encoding is accepted back by the KDF's salt parser, the nonce is exactly the
12 raw bytes drawn, and the ciphertext-and-tag is the plaintext length plus
the 16-byte tag. -/
theorem token_wire_format (m p saltRand nonce : Bytes)
    (hs : saltRand.length = 16) (hn : nonce.length = 12) :
    encrypt_password m p saltRand nonce =
        some (Except.ok (hexEncode (b64Encode saltRand ++ [SEMI] ++ hexEncode nonce ++ [SEMI] ++
          hexEncode (aeadEncrypt (kdf m (b64Encode saltRand)) nonce p)))) ∧
      nonce.length = 12 ∧
      (aeadEncrypt (kdf m (b64Encode saltRand)) nonce p).length = p.length + 16 ∧
      salt_from_b64 (b64Encode saltRand) = Except.ok (b64Encode saltRand) :=
  ⟨encrypt_eq m p hs hn, hn, aeadEncrypt_length _ _ _, salt_from_b64_generate hs⟩

/-- Witness for C4 at concrete inputs. -/
theorem token_wire_format_witness :
    (List.replicate 16 7 : Bytes).length = 16 ∧ (List.replicate 12 6 : Bytes).length = 12 ∧
      (encrypt_password [5] [1, 2, 3] (List.replicate 16 7) (List.replicate 12 6) =
          some (Except.ok (hexEncode (b64Encode (List.replicate 16 7) ++ [SEMI] ++
            hexEncode (List.replicate 12 6) ++ [SEMI] ++
            hexEncode (aeadEncrypt (kdf [5] (b64Encode (List.replicate 16 7)))
              (List.replicate 12 6) [1, 2, 3])))) ∧
        (List.replicate 12 6 : Bytes).length = 12 ∧
        (aeadEncrypt (kdf [5] (b64Encode (List.replicate 16 7))) (List.replicate 12 6)
            [1, 2, 3]).length = [1, 2, 3].length + 16 ∧
        salt_from_b64 (b64Encode (List.replicate 16 7)) =
          Except.ok (b64Encode (List.replicate 16 7))) :=
  ⟨by decide, by decide,
    token_wire_format [5] [1, 2, 3] (List.replicate 16 7) (List.replicate 12 6)
      (by decide) (by decide)⟩

/-- C8: key-length invariant — whenever the modelled Argon2 hashing step
succeeds (on any seal or open call), the derived key held in the `hash`
field is exactly 32 bytes, the ChaCha20-Poly1305 key size, so
`Key::from_slice` never hits its panicking length mismatch. -/
theorem derived_key_length_ok (m s : Bytes) (h : PasswordHash) (k : Bytes)
    (h1 : argon2_hash_password m s = Except.ok h) (h2 : h.hash = some k) :
    k.length = CHACHA_KEY_SIZE ∧ keyFromSlice k = some k := by
  by_cases hok : b64SaltOk s = true
  · rw [argon2_hash_password, if_pos hok] at h1
    injection h1 with h1
    rw [← h1] at h2
    simp only at h2
    injection h2 with h2
    rw [← h2]
    exact ⟨kdf_length m s, keyFromSlice_kdf m s⟩
  · rw [argon2_hash_password, if_neg hok] at h1
    cases h1

/-- Witness for C8 at a concrete generated salt. -/
theorem derived_key_length_ok_witness :
    argon2_hash_password [] (b64Encode (List.replicate 16 0)) =
        Except.ok ⟨some (kdf [] (b64Encode (List.replicate 16 0)))⟩ ∧
      ((kdf [] (b64Encode (List.replicate 16 0))).length = CHACHA_KEY_SIZE ∧
        keyFromSlice (kdf [] (b64Encode (List.replicate 16 0))) =
          some (kdf [] (b64Encode (List.replicate 16 0)))) :=
  ⟨by rfl,
    derived_key_length_ok [] (b64Encode (List.replicate 16 0))
      ⟨some (kdf [] (b64Encode (List.replicate 16 0)))⟩
      (kdf [] (b64Encode (List.replicate 16 0))) (by rfl) (by rfl)⟩

/-- C5 (code bug): the spec promises `open` always returns a typed error,
but on a structurally valid token whose nonce field hex-decodes to a length
other than 12 bytes — here the token `hex("AAAAAAAAAAAA;00;00")`, whose
nonce field is the single byte `0x00` — `decrypt_password` reaches
`Nonce::from_slice` with a 1-byte slice and panics (modelled as `none`)
instead of returning a `CryptoError`. -/
theorem nonce_length_panic :
    decrypt_password []
      (hexEncode [65, 65, 65, 65, 65, 65, 65, 65, 65, 65, 65, 65, 59, 48, 48, 59, 48, 48]) =
      none := by
  rfl

/-- C6: strength predicate — `is_password_strong c` is true exactly when the
byte length of `c` is at least 12 and `c` contains an uppercase letter, a
lowercase letter, an ASCII digit and an ASCII punctuation character; plus
the spec's five concrete cases. -/
theorem password_strength_spec :
    (∀ c : String, is_password_strong c = true ↔
      (12 ≤ rustStrLen c ∧ (∃ ch ∈ c.data, charIsUppercase ch = true) ∧
        (∃ ch ∈ c.data, charIsLowercase ch = true) ∧
        (∃ ch ∈ c.data, charIsAsciiDigit ch = true) ∧
        (∃ ch ∈ c.data, charIsAsciiPunct ch = true))) ∧
    is_password_strong "StrongP@ssword123" = true ∧
    is_password_strong "weak" = false ∧
    is_password_strong "alllowercase123!" = false ∧
    is_password_strong "ALLUPPERCASE123!" = false ∧
    is_password_strong "NoDigitsHere!!" = false := by
  refine ⟨?_, by decide, by decide, by decide, by decide, by decide⟩
  intro c
  unfold is_password_strong
  simp [List.any_eq_true, and_assoc]

/-- C3: malformed-token handling — for every master passphrase, `open` fails
with a `FormatError` (per the spec's §7 classification `isFormatError`) when
the token is not valid hex, when the decoded bytes are not valid UTF-8, when
the decoded string does not split on `';'` into exactly 3 parts
(`InvalidDataFormat`), or when the salt sub-field is rejected by the KDF's
salt parser; including the spec's concrete examples `"not-hex!!"` and
`hex("a;b")`. -/
theorem malformed_token_format_errors (m t d : Bytes) :
    (hexDecode t = none → decrypt_password m t = some (Except.error CryptoError.HexError)) ∧
    (hexDecode t = some d → utf8Valid d = false →
      decrypt_password m t = some (Except.error CryptoError.Utf8Error)) ∧
    (hexDecode t = some d → utf8Valid d = true → (d.splitOn SEMI).length ≠ 3 →
      decrypt_password m t = some (Except.error CryptoError.InvalidDataFormat)) ∧
    (∀ s r2 r3 : Bytes, hexDecode t = some d → utf8Valid d = true →
      d.splitOn SEMI = [s, r2, r3] → salt_from_b64 s = Except.error () →
      decrypt_password m t =
        some (Except.error (CryptoError.Argon2Error Argon2Kind.saltInvalid))) ∧
    isFormatError CryptoError.HexError = true ∧
    isFormatError CryptoError.Utf8Error = true ∧
    isFormatError CryptoError.InvalidDataFormat = true ∧
    isFormatError (CryptoError.Argon2Error Argon2Kind.saltInvalid) = true ∧
    decrypt_password m [110, 111, 116, 45, 104, 101, 120, 33, 33] =
      some (Except.error CryptoError.HexError) ∧
    decrypt_password m (hexEncode [97, 59, 98]) =
      some (Except.error CryptoError.InvalidDataFormat) := by
  refine ⟨?_, ?_, ?_, ?_, rfl, rfl, rfl, rfl, rfl, rfl⟩
  · intro h
    simp [decrypt_password, h]
  · intro h1 h2
    simp [decrypt_password, h1, h2]
  · intro h1 h2 h3
    simp [decrypt_password, h1, h2, h3]
  · intro s r2 r3 h1 h2 hsplit hsalt
    simp [decrypt_password, h1, h2, hsplit, hsalt]

/-- Witness for C3: the token `hex("!!!!;00;00")`, whose salt field `"!!!!"`
is rejected by the salt parser. -/
theorem malformed_token_format_errors_witness :
    hexDecode (hexEncode [33, 33, 33, 33, 59, 48, 48, 59, 48, 48]) =
        some [33, 33, 33, 33, 59, 48, 48, 59, 48, 48] ∧
      utf8Valid [33, 33, 33, 33, 59, 48, 48, 59, 48, 48] = true ∧
      ([33, 33, 33, 33, 59, 48, 48, 59, 48, 48] : Bytes).splitOn SEMI =
        [[33, 33, 33, 33], [48, 48], [48, 48]] ∧
      salt_from_b64 [33, 33, 33, 33] = Except.error () ∧
      decrypt_password [] (hexEncode [33, 33, 33, 33, 59, 48, 48, 59, 48, 48]) =
        some (Except.error (CryptoError.Argon2Error Argon2Kind.saltInvalid)) :=
  ⟨by rfl, by rfl, by decide, by rfl,
    (malformed_token_format_errors [] (hexEncode [33, 33, 33, 33, 59, 48, 48, 59, 48, 48])
        [33, 33, 33, 33, 59, 48, 48, 59, 48, 48]).2.2.2.1
      [33, 33, 33, 33] [48, 48] [48, 48] (by rfl) (by rfl) (by decide) (by rfl)⟩

theorem hexEncode_injOn {l1 l2 : Bytes} (h1 : ∀ b ∈ l1, b < 256) (h2 : ∀ b ∈ l2, b < 256)
    (he : hexEncode l1 = hexEncode l2) : l1 = l2 := by
  have hd := hexDecode_hexEncode h1
  rw [he, hexDecode_hexEncode h2] at hd
  exact (Option.some.inj hd).symm

/-- C7: non-determinism of seal — whenever two seal calls with the same
master passphrase and plaintext draw distinct (salt, nonce) randomness, the
two resulting tokens are different strings. -/
theorem seal_nondeterminism (m p s1 n1 s2 n2 : Bytes)
    (hs1 : s1.length = 16) (hs1b : ∀ b ∈ s1, b < 256)
    (hn1 : n1.length = 12) (hn1b : ∀ b ∈ n1, b < 256)
    (hs2 : s2.length = 16) (hs2b : ∀ b ∈ s2, b < 256)
    (hn2 : n2.length = 12) (hn2b : ∀ b ∈ n2, b < 256)
    (hne : ¬(s1 = s2 ∧ n1 = n2)) (t1 t2 : Bytes)
    (he1 : encrypt_password m p s1 n1 = some (Except.ok t1))
    (he2 : encrypt_password m p s2 n2 = some (Except.ok t2)) : t1 ≠ t2 := by
  rw [encrypt_eq m p hs1 hn1] at he1
  rw [encrypt_eq m p hs2 hn2] at he2
  simp only [Option.some.injEq, Except.ok.injEq] at he1 he2
  rw [← he1, ← he2]
  intro heq
  have hin1 : ∀ x ∈ b64Encode s1 ++ [SEMI] ++ hexEncode n1 ++ [SEMI] ++
      hexEncode (aeadEncrypt (kdf m (b64Encode s1)) n1 p), x < 256 :=
    fun x hx => lt_trans (token_bytes_lt x hx) (by norm_num)
  have hin2 : ∀ x ∈ b64Encode s2 ++ [SEMI] ++ hexEncode n2 ++ [SEMI] ++
      hexEncode (aeadEncrypt (kdf m (b64Encode s2)) n2 p), x < 256 :=
    fun x hx => lt_trans (token_bytes_lt x hx) (by norm_num)
  have hinner := hexDecode_hexEncode hin1
  rw [heq, hexDecode_hexEncode hin2] at hinner
  have hsplit := congrArg (List.splitOn SEMI) (Option.some.inj hinner)
  rw [splitOn_three b64Encode_no_semi hexEncode_no_semi hexEncode_no_semi,
    splitOn_three b64Encode_no_semi hexEncode_no_semi hexEncode_no_semi] at hsplit
  simp only [List.cons.injEq, and_true] at hsplit
  obtain ⟨hb64, hhexn, -⟩ := hsplit
  exact hne ⟨b64Encode_injOn hs2b hs1b hb64 |>.symm, hexEncode_injOn hn2b hn1b hhexn |>.symm⟩

/-- Witness for C7: two concrete seal calls drawing different salts produce
different tokens. -/
theorem seal_nondeterminism_witness :
    encrypt_password [] [] (List.replicate 16 0) (List.replicate 12 0) =
        some (Except.ok (hexEncode (b64Encode (List.replicate 16 0) ++ [SEMI] ++
          hexEncode (List.replicate 12 0) ++ [SEMI] ++
          hexEncode (aeadEncrypt (kdf [] (b64Encode (List.replicate 16 0)))
            (List.replicate 12 0) [])))) ∧
      encrypt_password [] [] (List.replicate 16 1) (List.replicate 12 0) =
        some (Except.ok (hexEncode (b64Encode (List.replicate 16 1) ++ [SEMI] ++
          hexEncode (List.replicate 12 0) ++ [SEMI] ++
          hexEncode (aeadEncrypt (kdf [] (b64Encode (List.replicate 16 1)))
            (List.replicate 12 0) [])))) ∧
      hexEncode (b64Encode (List.replicate 16 0) ++ [SEMI] ++
          hexEncode (List.replicate 12 0) ++ [SEMI] ++
          hexEncode (aeadEncrypt (kdf [] (b64Encode (List.replicate 16 0)))
            (List.replicate 12 0) [])) ≠
        hexEncode (b64Encode (List.replicate 16 1) ++ [SEMI] ++
          hexEncode (List.replicate 12 0) ++ [SEMI] ++
          hexEncode (aeadEncrypt (kdf [] (b64Encode (List.replicate 16 1)))
            (List.replicate 12 0) [])) :=
  ⟨by rfl, by rfl,
    seal_nondeterminism [] [] (List.replicate 16 0) (List.replicate 12 0)
      (List.replicate 16 1) (List.replicate 12 0)
      (by decide) (by decide) (by decide) (by decide) (by decide) (by decide) (by decide)
      (by decide) (by decide) _ _ (by rfl) (by rfl)⟩

/-- Rust `u8::to_ascii_uppercase`: maps `a-z` to `A-Z`, fixes everything
else. -/
def asciiUpperByte (b : Nat) : Nat :=
  if 97 ≤ b ∧ b ≤ 122 then b - 32 else b

/-- One byte string is a per-position case variant of another: at every
position it holds either the original byte or its ASCII-uppercased form. -/
def caseVariantB : Bytes → Bytes → Bool
  | [], [] => true
  | a :: as, b :: bs => (b == a || b == asciiUpperByte a) && caseVariantB as bs
  | _, _ => false

theorem hexDigitVal_asciiUpper (b : Nat) : hexDigitVal (asciiUpperByte b) = hexDigitVal b := by
  unfold asciiUpperByte hexDigitVal
  split_ifs <;> first | rfl | omega

theorem hexDigitVal_of_variant {a b : Nat} (h : (b == a || b == asciiUpperByte a) = true) :
    hexDigitVal b = hexDigitVal a := by
  rcases Bool.or_eq_true_iff.mp h with h | h
  · rw [beq_iff_eq.mp h]
  · rw [beq_iff_eq.mp h, hexDigitVal_asciiUpper]

theorem hexDecode_caseVariant : ∀ {l1 l2 : Bytes}, caseVariantB l1 l2 = true →
    hexDecode l2 = hexDecode l1 := by
  intro l1
  induction l1 using hexDecode.induct with
  | case1 =>
    intro l2 h
    cases l2 with
    | nil => rfl
    | cons b bs => cases h
  | case2 a =>
    intro l2 h
    cases l2 with
    | nil => cases h
    | cons b bs =>
      cases bs with
      | nil => rfl
      | cons c cs => simp [caseVariantB] at h
  | case3 x y rest hv lv bs hd2 hd1 hd0 ih =>
    intro l2 h
    cases l2 with
    | nil => cases h
    | cons b bs2 =>
      cases bs2 with
      | nil => simp [caseVariantB] at h
      | cons c cs =>
        simp only [caseVariantB, Bool.and_eq_true] at h
        obtain ⟨h1, h2, h3⟩ := h
        show hexDecode (b :: c :: cs) = hexDecode (x :: y :: rest)
        rw [hexDecode, hexDecode, hexDigitVal_of_variant h1, hexDigitVal_of_variant h2, ih h3]
  | case4 x y rest hfail ih =>
    intro l2 h
    cases l2 with
    | nil => cases h
    | cons b bs2 =>
      cases bs2 with
      | nil => simp [caseVariantB] at h
      | cons c cs =>
        simp only [caseVariantB, Bool.and_eq_true] at h
        obtain ⟨h1, h2, h3⟩ := h
        show hexDecode (b :: c :: cs) = hexDecode (x :: y :: rest)
        rw [hexDecode, hexDecode, hexDigitVal_of_variant h1, hexDigitVal_of_variant h2, ih h3]

theorem decrypt_congr {x y : Bytes} (h : hexDecode x = hexDecode y) (m : Bytes) :
    decrypt_password m x = decrypt_password m y := by
  unfold decrypt_password
  rw [h]

/-- C9: outer-hex case insensitivity — for every token produced by seal,
`open` succeeds with the same plaintext on any per-position case variant of
the token (all-lowercase, all-uppercase, or mixed case of the outer hex). -/
theorem outer_hex_case_insensitive (m p saltRand nonce : Bytes)
    (hp256 : ∀ b ∈ p, b < 256) (hputf : utf8Valid p = true)
    (hs : saltRand.length = 16) (hn : nonce.length = 12) (hnb : ∀ b ∈ nonce, b < 256)
    (t t' : Bytes) (he : encrypt_password m p saltRand nonce = some (Except.ok t))
    (hvar : caseVariantB t t' = true) :
    decrypt_password m t' = some (Except.ok p) := by
  rw [encrypt_eq m p hs hn] at he
  simp only [Option.some.injEq, Except.ok.injEq] at he
  rw [decrypt_congr (hexDecode_caseVariant hvar) m, ← he]
  rw [decrypt_token_eq m hs hn hnb (aeadEncrypt_lt hp256 _ _), aead_roundtrip]
  show (if utf8Valid p = true then some (Except.ok p)
    else some (Except.error CryptoError.Utf8Error)) = some (Except.ok p)
  rw [hputf, if_pos rfl]

set_option maxRecDepth 100000 in
/-- Witness for C9: a concrete token and its all-uppercase variant decrypt
to the same plaintext. -/
theorem outer_hex_case_insensitive_witness :
    encrypt_password [1] [] (List.replicate 16 3) (List.replicate 12 4) =
        some (Except.ok (hexEncode (b64Encode (List.replicate 16 3) ++ [SEMI] ++
          hexEncode (List.replicate 12 4) ++ [SEMI] ++
          hexEncode (aeadEncrypt (kdf [1] (b64Encode (List.replicate 16 3)))
            (List.replicate 12 4) [])))) ∧
      caseVariantB
        (hexEncode (b64Encode (List.replicate 16 3) ++ [SEMI] ++
          hexEncode (List.replicate 12 4) ++ [SEMI] ++
          hexEncode (aeadEncrypt (kdf [1] (b64Encode (List.replicate 16 3)))
            (List.replicate 12 4) [])))
        ((hexEncode (b64Encode (List.replicate 16 3) ++ [SEMI] ++
          hexEncode (List.replicate 12 4) ++ [SEMI] ++
          hexEncode (aeadEncrypt (kdf [1] (b64Encode (List.replicate 16 3)))
            (List.replicate 12 4) []))).map asciiUpperByte) = true ∧
      decrypt_password [1]
        ((hexEncode (b64Encode (List.replicate 16 3) ++ [SEMI] ++
          hexEncode (List.replicate 12 4) ++ [SEMI] ++
          hexEncode (aeadEncrypt (kdf [1] (b64Encode (List.replicate 16 3)))
            (List.replicate 12 4) []))).map asciiUpperByte) = some (Except.ok []) :=
  ⟨by rfl, by decide,
    outer_hex_case_insensitive [1] [] (List.replicate 16 3) (List.replicate 12 4)
      (by decide) (by decide) (by decide) (by decide) (by decide) _ _ (by rfl) (by decide)⟩

theorem aead_tamper_rejected (key nonce p : Bytes) (hp : ∀ b ∈ p, b < 256)
    (i : Nat) (hi : i < (aeadEncrypt key nonce p).length)
    (b' : Nat) (hb' : b' < 256) (hne : b' ≠ (aeadEncrypt key nonce p).getD i 0) :
    aeadDecrypt key nonce ((aeadEncrypt key nonce p).set i b') = Except.error () := by
  have hbl : (xorKs key nonce 0 p).length = p.length := xorKs_length key nonce 0 p
  have htl : (polyTag key nonce (xorKs key nonce 0 p)).length = 16 :=
    polyTag_length key nonce _
  have hct : aeadEncrypt key nonce p =
      xorKs key nonce 0 p ++ polyTag key nonce (xorKs key nonce 0 p) := rfl
  rw [hct] at hi hne ⊢
  by_cases hcase : i < (xorKs key nonce 0 p).length
  · rw [List.set_append, if_pos hcase,
      aeadDecrypt_body_tag key nonce ((xorKs key nonce 0 p).set i b') _ htl, if_neg]
    intro heq
    have hbi : b' ≠ (xorKs key nonce 0 p)[i] := by
      rw [List.getD_append _ _ _ _ hcase, List.getD_eq_getElem _ _ hcase] at hne
      exact hne
    have hbilt : (xorKs key nonce 0 p)[i] < 256 :=
      xorKs_lt hp key nonce 0 _ (List.getElem_mem hcase)
    have hsum1 : (List.take i (xorKs key nonce 0 p)).sum +
        ((xorKs key nonce 0 p)[i] + (List.drop (i + 1) (xorKs key nonce 0 p)).sum) =
        (xorKs key nonce 0 p).sum := by
      rw [← List.sum_take_add_sum_drop (xorKs key nonce 0 p) i,
        List.drop_eq_getElem_cons hcase, List.sum_cons]
    have hsum2 : ((xorKs key nonce 0 p).set i b').sum =
        (List.take i (xorKs key nonce 0 p)).sum +
          (if i < (xorKs key nonce 0 p).length then b' else 0) +
          (List.drop (i + 1) (xorKs key nonce 0 p)).sum :=
      List.sum_set (xorKs key nonce 0 p) i b'
    rw [if_pos hcase] at hsum2
    have hhead : ((xorKs key nonce 0 p).sum + mixFold 3 (key ++ nonce)) % 256 =
        (((xorKs key nonce 0 p).set i b').sum + mixFold 3 (key ++ nonce)) % 256 := by
      have := congrArg (fun l : Bytes => l.getD 0 0) heq
      simpa [polyTag] using this
    omega
  · rw [List.set_append, if_neg hcase,
      aeadDecrypt_body_tag key nonce _ _ (by rw [List.length_set]; exact htl), if_neg]
    intro heq
    have hj : i - (xorKs key nonce 0 p).length < 16 := by
      rw [List.length_append, htl] at hi
      omega
    have hj' : i - (xorKs key nonce 0 p).length <
        (polyTag key nonce (xorKs key nonce 0 p)).length := by
      rw [htl]; exact hj
    have hgd : ((polyTag key nonce (xorKs key nonce 0 p)).set
        (i - (xorKs key nonce 0 p).length) b').getD (i - (xorKs key nonce 0 p).length) 0 =
        (polyTag key nonce (xorKs key nonce 0 p)).getD (i - (xorKs key nonce 0 p).length) 0 :=
      by rw [heq]
    rw [List.getD_eq_getElem _ _ (by rw [List.length_set]; exact hj'),
      List.getElem_set_self, List.getD_eq_getElem _ _ hj'] at hgd
    rw [List.getD_eq_getElem _ _ hi,
      List.getElem_append_right (Nat.le_of_not_lt hcase)] at hne
    exact hne hgd

theorem decrypt_aead_error_iff (m2 : Bytes) {saltRand nonce ct : Bytes}
    (hs : saltRand.length = 16) (hn : nonce.length = 12) (hnb : ∀ b ∈ nonce, b < 256)
    (hct : ∀ b ∈ ct, b < 256) :
    decrypt_password m2 (hexEncode (b64Encode saltRand ++ [SEMI] ++ hexEncode nonce ++ [SEMI] ++
        hexEncode ct)) = some (Except.error CryptoError.AeadError) ↔
      aeadDecrypt (kdf m2 (b64Encode saltRand)) nonce ct = Except.error () := by
  rw [decrypt_token_eq m2 hs hn hnb hct]
  cases h : aeadDecrypt (kdf m2 (b64Encode saltRand)) nonce ct with
  | error e => cases e; simp
  | ok pt =>
    show (if utf8Valid pt = true then some (Except.ok pt)
      else some (Except.error CryptoError.Utf8Error)) =
        some (Except.error CryptoError.AeadError) ↔ _
    split_ifs <;> simp

/-- C2: authenticated-decryption rejection — on a well-formed token sealed
with passphrase `m1`, `open` with passphrase `m2` fails with
`AuthenticationError` (`CryptoError::AeadError`) exactly when the AEAD's
integrity check under the key derived from `m2` rejects (which is what a
wrong derived key means, and which the cryptographic construction guarantees
for `m1 ≠ m2` except with negligible probability); and changing any single
byte of the ciphertext-and-tag field to a different byte value, then opening
with the correct passphrase, always fails with `AuthenticationError` rather
than returning corrupted plaintext. -/
theorem aead_rejection_characterization (m1 m2 p saltRand nonce : Bytes)
    (hp256 : ∀ b ∈ p, b < 256) (hs : saltRand.length = 16) (hn : nonce.length = 12)
    (hnb : ∀ b ∈ nonce, b < 256) :
    (decrypt_password m2 (hexEncode (b64Encode saltRand ++ [SEMI] ++ hexEncode nonce ++ [SEMI] ++
          hexEncode (aeadEncrypt (kdf m1 (b64Encode saltRand)) nonce p))) =
        some (Except.error CryptoError.AeadError) ↔
      aeadDecrypt (kdf m2 (b64Encode saltRand)) nonce
        (aeadEncrypt (kdf m1 (b64Encode saltRand)) nonce p) = Except.error ()) ∧
    (∀ i b', i < (aeadEncrypt (kdf m1 (b64Encode saltRand)) nonce p).length → b' < 256 →
      b' ≠ (aeadEncrypt (kdf m1 (b64Encode saltRand)) nonce p).getD i 0 →
      decrypt_password m1 (hexEncode (b64Encode saltRand ++ [SEMI] ++ hexEncode nonce ++ [SEMI] ++
          hexEncode ((aeadEncrypt (kdf m1 (b64Encode saltRand)) nonce p).set i b'))) =
        some (Except.error CryptoError.AeadError)) := by
  constructor
  · exact decrypt_aead_error_iff m2 hs hn hnb (aeadEncrypt_lt hp256 _ _)
  · intro i b' hi hb' hne
    have hct' : ∀ x ∈ (aeadEncrypt (kdf m1 (b64Encode saltRand)) nonce p).set i b', x < 256 := by
      intro x hx
      rcases List.mem_or_eq_of_mem_set hx with hx | rfl
      · exact aeadEncrypt_lt hp256 _ _ x hx
      · exact hb'
    rw [decrypt_aead_error_iff m1 hs hn hnb hct']
    exact aead_tamper_rejected _ _ _ hp256 i hi b' hb' hne

set_option maxRecDepth 100000 in
/-- Witness for C2: at master passphrases `[0]` and `[1]`, empty plaintext
and concrete randomness, the characterization applies; moreover the
wrong-passphrase open concretely evaluates to `AeadError`. -/
theorem aead_rejection_characterization_witness :
    (∀ b ∈ ([] : Bytes), b < 256) ∧ (List.replicate 16 0 : Bytes).length = 16 ∧
      (List.replicate 12 0 : Bytes).length = 12 ∧
      (∀ b ∈ (List.replicate 12 0 : Bytes), b < 256) ∧
      ((decrypt_password [1] (hexEncode (b64Encode (List.replicate 16 0) ++ [SEMI] ++
            hexEncode (List.replicate 12 0) ++ [SEMI] ++
            hexEncode (aeadEncrypt (kdf [0] (b64Encode (List.replicate 16 0)))
              (List.replicate 12 0) []))) =
          some (Except.error CryptoError.AeadError) ↔
        aeadDecrypt (kdf [1] (b64Encode (List.replicate 16 0))) (List.replicate 12 0)
          (aeadEncrypt (kdf [0] (b64Encode (List.replicate 16 0)))
            (List.replicate 12 0) []) = Except.error ()) ∧
        (∀ i b',
          i < (aeadEncrypt (kdf [0] (b64Encode (List.replicate 16 0)))
            (List.replicate 12 0) []).length → b' < 256 →
          b' ≠ (aeadEncrypt (kdf [0] (b64Encode (List.replicate 16 0)))
            (List.replicate 12 0) []).getD i 0 →
          decrypt_password [0] (hexEncode (b64Encode (List.replicate 16 0) ++ [SEMI] ++
              hexEncode (List.replicate 12 0) ++ [SEMI] ++
              hexEncode ((aeadEncrypt (kdf [0] (b64Encode (List.replicate 16 0)))
                (List.replicate 12 0) []).set i b'))) =
            some (Except.error CryptoError.AeadError))) ∧
      decrypt_password [1] (hexEncode (b64Encode (List.replicate 16 0) ++ [SEMI] ++
          hexEncode (List.replicate 12 0) ++ [SEMI] ++
          hexEncode (aeadEncrypt (kdf [0] (b64Encode (List.replicate 16 0)))
            (List.replicate 12 0) []))) = some (Except.error CryptoError.AeadError) :=
  ⟨by decide, by decide, by decide, by decide,
    aead_rejection_characterization [0] [1] [] (List.replicate 16 0) (List.replicate 12 0)
      (by decide) (by decide) (by decide) (by decide),
    by rfl⟩
